import Mathlib

/-!
Shallow embedding of the phu-arp MIDI chord/pattern core:
`ChordNotesTracker` (src/src/ChordNotesTracker.h), `PatternTracker`
(src/src/PatternTracker.h) and the coordinator `processBlock` /
`onIsPlayingChanged` (src/src/ChordPatternCoordinator.h and the
pass-through-capable variant of the same class).

Modelling conventions:
- `juce::MidiMessage` note messages are modelled as a record of kind,
  channel, note number and velocity.  JUCE's accessors are translated with
  their default-argument semantics: `isNoteOn()` is false for a note-on of
  velocity 0, `isNoteOff()` is true for a note-on of velocity 0.  JUCE masks
  data bytes to 7 bits and channels to 1..16 inside the message constructors;
  on the MIDI-range values the program works with this is the identity, so
  the constructors here store their arguments unchanged.
- Channel-less MIDI messages (for which JUCE's `getChannel()` returns 0) are
  modelled with `channel = 0`.
- `std::stable_sort` is modelled by insertion sort with the reflexive closure
  of the strict comparator, which computes the unique stable sort.
- The C++ `%` on `int` truncates toward zero, hence `Int.tmod`;
  `std::floor(relative / 12.0)` is exact floor division for every `int`
  argument (doubles represent the quotient to within far less than 1/12),
  hence `Int.fdiv`.
-/

namespace PhuArp

/-- Kind tag of a modelled MIDI message. -/
inductive MsgKind where
  | noteOn
  | noteOff
  | other
deriving DecidableEq, Repr

/-- Model of a `juce::MidiMessage` note message: channel, note number and
velocity, plus a kind tag.  Channel-less messages carry `channel = 0`. -/
structure MidiMessage where
  kind : MsgKind
  channel : Int
  noteNumber : Int
  velocity : Int
deriving DecidableEq, Repr

/-- Model of `juce::MidiMessage::noteOn (channel, noteNumber, velocity)`. -/
def MidiMessage.noteOnMsg (channel noteNumber velocity : Int) : MidiMessage :=
  ⟨MsgKind.noteOn, channel, noteNumber, velocity⟩

/-- Model of `juce::MidiMessage::noteOff (channel, noteNumber, velocity)`. -/
def MidiMessage.noteOffMsg (channel noteNumber velocity : Int) : MidiMessage :=
  ⟨MsgKind.noteOff, channel, noteNumber, velocity⟩

/-- JUCE `isNoteOn()` with its default argument: false for velocity 0. -/
def MidiMessage.isNoteOn (m : MidiMessage) : Bool :=
  m.kind == MsgKind.noteOn && m.velocity != 0

/-- JUCE `isNoteOff()` with its default argument: also true for a note-on of
velocity 0. -/
def MidiMessage.isNoteOff (m : MidiMessage) : Bool :=
  m.kind == MsgKind.noteOff || (m.kind == MsgKind.noteOn && m.velocity == 0)

/-- JUCE `isForChannel (ch)`: the message carries this channel.  Channel-less
messages are modelled with channel 0 and the coordinator's configured
channels are 1-based, so plain equality is faithful. -/
def MidiMessage.isForChannel (m : MidiMessage) (ch : Int) : Bool :=
  m.channel == ch

/-- Model of `ChordPatternCoordinator::TimedEvent`: a message paired with its
sample position inside the block. -/
structure TimedEvent where
  message : MidiMessage
  samplePosition : Int
deriving DecidableEq, Repr

/-! ChordNotesTracker.  Its state is the sorted `std::vector` `chordNotes`,
modelled as a `List MidiMessage`. -/

/-- Pitch order used by `insertChordNote`'s sorting comparator
(`a.getNoteNumber() < b.getNoteNumber()`), taken reflexively. -/
def pitchLe (a b : MidiMessage) : Prop :=
  a.noteNumber ≤ b.noteNumber

instance : DecidableRel pitchLe := fun a b =>
  inferInstanceAs (Decidable (a.noteNumber ≤ b.noteNumber))

instance : IsTotal MidiMessage pitchLe :=
  ⟨fun a b => Int.le_total a.noteNumber b.noteNumber⟩

instance : IsTrans MidiMessage pitchLe :=
  ⟨fun _ _ _ hab hbc => le_trans hab hbc⟩

/-- `ChordNotesTracker::getChordNoteByIndex`: bounds-checked positional
lookup, `none` (the C++ `nullptr`) when the index is outside `[0, size)`. -/
def getChordNoteByIndex (chordNotes : List MidiMessage) (chordIndex : Int) :
    Option MidiMessage :=
  if chordIndex < 0 || chordIndex ≥ (chordNotes.length : Int) then none
  else chordNotes.get? chordIndex.toNat

/-- `ChordNotesTracker::insertChordNote`: append a fresh note-on message and
re-sort ascending by note number (`std::sort`; any sorted permutation is
observationally equal through pitch lookups, insertion sort picks one). -/
def insertChordNote (chordNotes : List MidiMessage)
    (noteNumber velocity channel : Int) : List MidiMessage :=
  List.insertionSort pitchLe
    (chordNotes ++ [MidiMessage.noteOnMsg channel noteNumber velocity])

/-- `ChordNotesTracker::removeChordNote`: `std::find_if` for the first stored
note with this note number, erase it, report whether one was found. -/
def removeChordNote (chordNotes : List MidiMessage) (noteNumber : Int) :
    Bool × List MidiMessage :=
  match chordNotes with
  | [] => (false, [])
  | m :: rest =>
      if m.noteNumber = noteNumber then (true, rest)
      else
        let r := removeChordNote rest noteNumber
        (r.1, m :: r.2)

/-- `ChordNotesTracker::clearChord`. -/
def clearChord : List MidiMessage := []

/-! PatternTracker.  Its state is the `std::vector<PlayingNote>`
`playingNotes`, modelled as a `List PlayingNote`. -/

/-- Model of `PatternTracker::PlayingNote`. -/
structure PlayingNote where
  message : MidiMessage
  originalChordIndex : Int
  octaveOffset : Int
  ownerRhythmNote : Int
deriving DecidableEq, Repr

/-- `PlayingNote::getNoteNumber`. -/
def PlayingNote.getNoteNumber (pn : PlayingNote) : Int :=
  pn.message.noteNumber

/-- `PlayingNote::getVelocity`. -/
def PlayingNote.getVelocity (pn : PlayingNote) : Int :=
  pn.message.velocity

/-- `PatternTracker::startPlayingNote`: look the chord note up by index, on
success append a voice with owner key `-1` and return the actual note
number, on failure return `-1` and leave the list unchanged. -/
def startPlayingNote (chordNotes : List MidiMessage)
    (playingNotes : List PlayingNote) (chordIndex octaveOffset : Int) :
    List PlayingNote × Int :=
  match getChordNoteByIndex chordNotes chordIndex with
  | none => (playingNotes, -1)
  | some chordNote =>
      let actualNote := chordNote.noteNumber + octaveOffset
      (playingNotes ++
        [⟨MidiMessage.noteOnMsg 2 actualNote chordNote.velocity,
          chordIndex, octaveOffset, -1⟩],
       actualNote)

/-- `PatternTracker::startPlayingRhythmOwnedNote`: append a voice that stores
the concrete output note and the rhythm owner key. -/
def startPlayingRhythmOwnedNote (playingNotes : List PlayingNote)
    (rhythmNoteNumber actualNote velocity channel chordIndex octaveOffset :
      Int) : List PlayingNote :=
  playingNotes ++
    [⟨MidiMessage.noteOnMsg channel actualNote velocity,
      chordIndex, octaveOffset, rhythmNoteNumber⟩]

/-- `PatternTracker::stopPlayingNotesForRhythmOwner`: one pass over the
voices, splitting them into (stopped, remaining) by owner key; the stopped
voices are returned, the remaining ones become the new state. -/
def stopPlayingNotesForRhythmOwner (playingNotes : List PlayingNote)
    (rhythmNoteNumber : Int) : List PlayingNote × List PlayingNote :=
  match playingNotes with
  | [] => ([], [])
  | note :: rest =>
      let r := stopPlayingNotesForRhythmOwner rest rhythmNoteNumber
      if note.ownerRhythmNote = rhythmNoteNumber then (note :: r.1, r.2)
      else (r.1, note :: r.2)

/-- `PatternTracker::stopAllPlayingNotes`: clear, returning the count. -/
def stopAllPlayingNotes (playingNotes : List PlayingNote) :
    List PlayingNote × Int :=
  ([], (playingNotes.length : Int))

/-- `PatternTracker::getAllPlayingNotesAsNoteOffs`: one note-off message per
active voice, carrying the voice's stored note number and velocity. -/
def getAllPlayingNotesAsNoteOffs (playingNotes : List PlayingNote)
    (channel : Int) : List MidiMessage :=
  playingNotes.map (fun pn =>
    MidiMessage.noteOffMsg channel pn.getNoteNumber pn.getVelocity)

/-- `PatternTracker::computeChordIndex`: C++ truncating `%` followed by the
negative-remainder fixup. -/
def computeChordIndex (rhythmNote rootNote : Int) : Int :=
  let relativeNoteIndex := rhythmNote - rootNote
  let m := relativeNoteIndex.tmod 12
  if m < 0 then m + 12 else m

/-- `PatternTracker::computeOctaveOffset`: `std::floor (relative / 12.0) * 12`;
the double division and floor are exact floor division on every `int`. -/
def computeOctaveOffset (rhythmNote rootNote : Int) : Int :=
  (rhythmNote - rootNote).fdiv 12 * 12

/-! ChordPatternCoordinator.  Configuration covers both variants in the tree:
the fixed-channel one (chord 1, rhythm 16, output 2, no pass-through) and the
configurable one with the `passThroughOtherMidi` flag. -/

/-- Coordinator configuration: input/output channels, rhythm root note and
the pass-through flag. -/
structure CoordConfig where
  chordInputChannel : Int
  rhythmInputChannel : Int
  outputChannel : Int
  rhythmRootNote : Int
  passThroughOtherMidi : Bool
deriving DecidableEq, Repr

/-- Default configuration of the coordinator (chord channel 1, rhythm
channel 16, output channel 2, root C1 = 24, pass-through off). -/
def defaultConfig : CoordConfig :=
  ⟨1, 16, 2, 24, false⟩

/-- Mutable state owned by one coordinator: the chord registry and the voice
tracker. -/
structure CoordState where
  chordNotes : List MidiMessage
  playingNotes : List PlayingNote
deriving DecidableEq, Repr

/-- Local helper `isNoteOffLike` from `processBlock`: explicit note-off, or
note-on with velocity 0. -/
def isNoteOffLike (m : MidiMessage) : Bool :=
  m.isNoteOff || (m.isNoteOn && m.velocity == 0)

/-- Local helper `phasePriority` from `processBlock`: the tie-break rank of a
message at a given sample position. -/
def phasePriority (cfg : CoordConfig) (m : MidiMessage) : Int :=
  if m.channel == cfg.rhythmInputChannel && isNoteOffLike m then 0
  else if m.channel == cfg.rhythmInputChannel && m.isNoteOn then 2
  else if m.channel == cfg.chordInputChannel && (m.isNoteOn || isNoteOffLike m)
    then 1
  else 3

/-- Reflexive closure of the `std::stable_sort` comparator used in
`processBlock`: lexicographic on (sample position, phase priority). -/
def eventLe (cfg : CoordConfig) (a b : TimedEvent) : Prop :=
  a.samplePosition < b.samplePosition ∨
    (a.samplePosition = b.samplePosition ∧
      phasePriority cfg a.message ≤ phasePriority cfg b.message)

instance (cfg : CoordConfig) : DecidableRel (eventLe cfg) := fun a b =>
  inferInstanceAs (Decidable (a.samplePosition < b.samplePosition ∨
    (a.samplePosition = b.samplePosition ∧
      phasePriority cfg a.message ≤ phasePriority cfg b.message)))

instance (cfg : CoordConfig) : IsTotal TimedEvent (eventLe cfg) := by
  constructor
  intro a b
  rcases lt_trichotomy a.samplePosition b.samplePosition with h | h | h
  · exact Or.inl (Or.inl h)
  · rcases Int.le_total (phasePriority cfg a.message)
      (phasePriority cfg b.message) with hp | hp
    · exact Or.inl (Or.inr ⟨h, hp⟩)
    · exact Or.inr (Or.inr ⟨h.symm, hp⟩)
  · exact Or.inr (Or.inl h)

instance (cfg : CoordConfig) : IsTrans TimedEvent (eventLe cfg) := by
  constructor
  intro a b c hab hbc
  rcases hab with hab | ⟨he1, hp1⟩
  · rcases hbc with hbc | ⟨he2, _⟩
    · exact Or.inl (lt_trans hab hbc)
    · exact Or.inl (he2 ▸ hab)
  · rcases hbc with hbc | ⟨he2, hp2⟩
    · exact Or.inl (he1 ▸ hbc)
    · exact Or.inr ⟨he1.trans he2, le_trans hp1 hp2⟩

/-- Step 2 of `processBlock`: the stable sort of the working list by
(sample position, phase priority).  Insertion sort with the reflexive
closure of the strict comparator is the stable sort `std::stable_sort`
computes. -/
def sortEvents (cfg : CoordConfig) (events : List TimedEvent) :
    List TimedEvent :=
  List.insertionSort (eventLe cfg) events

/-- Local helper `stopRhythmOwnedNotes` from `processBlock`: stop every voice
owned by this rhythm note and emit one output-channel note-off per stopped
voice, carrying the voice's stored note number and velocity, at the event's
sample position. -/
def stopRhythmOwnedNotes (cfg : CoordConfig) (st : CoordState)
    (samplePosition rhythmNoteNumber : Int) :
    CoordState × List TimedEvent :=
  let r := stopPlayingNotesForRhythmOwner st.playingNotes rhythmNoteNumber
  (⟨st.chordNotes, r.2⟩,
   r.1.map (fun stopped =>
     ⟨MidiMessage.noteOffMsg cfg.outputChannel stopped.getNoteNumber
        stopped.getVelocity,
      samplePosition⟩))

/-- Local helper `startRhythmOwnedNote` from `processBlock`: unconditionally
stop voices owned by this rhythm note (retrigger safety), then resolve the
chord index; on a miss emit nothing further, otherwise record the concrete
output note in the tracker and emit the output note-on at the event's sample
position. -/
def startRhythmOwnedNote (cfg : CoordConfig) (st : CoordState)
    (samplePosition rhythmNoteNumber : Int) :
    CoordState × List TimedEvent :=
  let s := stopRhythmOwnedNotes cfg st samplePosition rhythmNoteNumber
  let chordIndex := computeChordIndex rhythmNoteNumber cfg.rhythmRootNote
  let octaveOffset := computeOctaveOffset rhythmNoteNumber cfg.rhythmRootNote
  match getChordNoteByIndex s.1.chordNotes chordIndex with
  | none => s
  | some chordNote =>
      let actualNote := chordNote.noteNumber + octaveOffset
      let velocity := chordNote.velocity
      (⟨s.1.chordNotes,
        startPlayingRhythmOwnedNote s.1.playingNotes rhythmNoteNumber
          actualNote velocity cfg.outputChannel chordIndex octaveOffset⟩,
       s.2 ++
         [⟨MidiMessage.noteOnMsg cfg.outputChannel actualNote velocity,
           samplePosition⟩])

/-- Body of the step-3 loop of `processBlock` for a single event: dispatch on
the channel; rhythm note-off-likes stop owned voices, rhythm note-ons
(re)trigger, chord note-ons insert into the registry, chord note-off-likes
remove from it, anything else mutates nothing and emits nothing. -/
def applyEvent (cfg : CoordConfig) (st : CoordState) (e : TimedEvent) :
    CoordState × List TimedEvent :=
  let msg := e.message
  if msg.channel == cfg.rhythmInputChannel then
    if isNoteOffLike msg then
      stopRhythmOwnedNotes cfg st e.samplePosition msg.noteNumber
    else if msg.isNoteOn then
      startRhythmOwnedNote cfg st e.samplePosition msg.noteNumber
    else (st, [])
  else if msg.channel == cfg.chordInputChannel then
    if msg.isNoteOn && msg.velocity > 0 then
      (⟨insertChordNote st.chordNotes msg.noteNumber msg.velocity msg.channel,
        st.playingNotes⟩, [])
    else if isNoteOffLike msg then
      (⟨(removeChordNote st.chordNotes msg.noteNumber).2, st.playingNotes⟩,
       [])
    else (st, [])
  else (st, [])

/-- Step 3 of `processBlock`: fold the loop body over the sorted event
stream, concatenating the emitted output events. -/
def applyEvents (cfg : CoordConfig) (st : CoordState) :
    List TimedEvent → CoordState × List TimedEvent
  | [] => (st, [])
  | e :: rest =>
      let s1 := applyEvent cfg st e
      let s2 := applyEvents cfg s1.1 rest
      (s2.1, s1.2 ++ s2.2)

/-- `juce::MidiBuffer::addEvent`: insert the event keeping the buffer sorted
by sample position, after every event already stored at the same or an
earlier position. -/
def addEvent (buffer : List TimedEvent) (m : MidiMessage) (pos : Int) :
    List TimedEvent :=
  match buffer with
  | [] => [⟨m, pos⟩]
  | e :: rest =>
      if pos < e.samplePosition then ⟨m, pos⟩ :: e :: rest
      else e :: addEvent rest m pos

/-- Fold of `addEvent` over a list of timed events. -/
def addEvents (buffer : List TimedEvent) (events : List TimedEvent) :
    List TimedEvent :=
  match events with
  | [] => buffer
  | e :: rest => addEvents (addEvent buffer e.message e.samplePosition) rest

/-- Write-back predicate of the pass-through branch: the event is consumed
because it sits on the chord, rhythm or output channel. -/
def isConsumed (cfg : CoordConfig) (m : MidiMessage) : Bool :=
  m.isForChannel cfg.chordInputChannel ||
  m.isForChannel cfg.rhythmInputChannel ||
  m.isForChannel cfg.outputChannel

/-- `ChordPatternCoordinator::processBlock`: snapshot, stable sort, apply in
order, then write back.  With pass-through off the buffer is cleared and
refilled with the generated events; with pass-through on a fresh buffer
keeps every input event not on a consumed channel and the generated events
are added to it.  Returns the new coordinator state and the final buffer. -/
def processBlock (cfg : CoordConfig) (st : CoordState)
    (midiBuffer : List TimedEvent) : CoordState × List TimedEvent :=
  let sorted := sortEvents cfg midiBuffer
  let r := applyEvents cfg st sorted
  if cfg.passThroughOtherMidi then
    let kept := midiBuffer.filter (fun e => !(isConsumed cfg e.message))
    (r.1, addEvents (addEvents [] kept) r.2)
  else
    (r.1, addEvents [] r.2)

/-- `ChordPatternCoordinator::onIsPlayingChanged`: on a playing-to-stopped
transition, when a buffer is attached, clear it and refill it with one
note-off at sample position 0 per active voice; in every case of that
transition stop all voices and clear the chord registry. -/
def onIsPlayingChanged (cfg : CoordConfig) (st : CoordState)
    (oldValue newValue : Bool) (midiBuffer : Option (List TimedEvent)) :
    CoordState × Option (List TimedEvent) :=
  if oldValue = true ∧ newValue = false then
    let newBuffer :=
      match midiBuffer with
      | none => none
      | some _ =>
          let noteOffs :=
            getAllPlayingNotesAsNoteOffs st.playingNotes cfg.outputChannel
          some (noteOffs.foldl (fun b m => addEvent b m 0) [])
    (⟨clearChord, (stopAllPlayingNotes st.playingNotes).1⟩, newBuffer)
  else (st, midiBuffer)

/-- Chord-channel operation language for the registry invariant: the three
mutations `processBlock` ever performs on the chord registry. -/
inductive ChordOp where
  | insert (pitch velocity channel : Int)
  | remove (pitch : Int)
  | clear
deriving DecidableEq, Repr

/-- Apply one chord-registry mutation. -/
def applyChordOp (chordNotes : List MidiMessage) (op : ChordOp) :
    List MidiMessage :=
  match op with
  | ChordOp.insert p v c => insertChordNote chordNotes p v c
  | ChordOp.remove p => (removeChordNote chordNotes p).2
  | ChordOp.clear => clearChord

/-- Apply a sequence of chord-registry mutations to the empty registry. -/
def applyChordOps (ops : List ChordOp) : List MidiMessage :=
  ops.foldl applyChordOp []

/-! Helper lemmas. -/

/-- Truncating remainder by 12 is strictly above -12. -/
theorem neg_twelve_lt_tmod (a : Int) : -12 < a.tmod 12 := by
  cases a with
  | ofNat m =>
      have h := Int.tmod_nonneg (a := Int.ofNat m) 12 (Int.ofNat_nonneg m)
      omega
  | negSucc m =>
      have h : Int.tmod (Int.negSucc m) 12 = -((m + 1 : Nat) % 12 : Nat) := rfl
      have h2 : (m + 1) % 12 < 12 := Nat.mod_lt _ (by norm_num)
      omega

/-- The truncating remainder with the negative fixup computes the Euclidean
remainder. -/
theorem tmod_fixup_eq_emod (a : Int) :
    (if a.tmod 12 < 0 then a.tmod 12 + 12 else a.tmod 12) = a % 12 := by
  have h1 := Int.tmod_add_tdiv a 12
  have h2 := Int.tmod_lt_of_pos a (b := 12) (by norm_num)
  have h3 := neg_twelve_lt_tmod a
  split <;> omega

/-- `computeChordIndex` computes the Euclidean remainder of the relative
pitch by 12. -/
theorem computeChordIndex_eq_emod (p r : Int) :
    computeChordIndex p r = (p - r) % 12 := by
  simpa [computeChordIndex] using tmod_fixup_eq_emod (p - r)

/-- `computeOctaveOffset` computes floor division of the relative pitch by
12, times 12. -/
theorem computeOctaveOffset_eq_ediv (p r : Int) :
    computeOctaveOffset p r = (p - r) / 12 * 12 := by
  unfold computeOctaveOffset
  rw [Int.fdiv_eq_ediv _ (by norm_num)]

/-- C6: rhythm-to-chord mapping arithmetic.  The chord index equals the
double-mod normalisation `((p - r) mod 12 + 12) mod 12` (C truncating mod)
and lies in [0, 11]; the octave offset is floor division of `p - r` by 12,
times 12; index plus offset reconstructs `p - r`; and on the spec's negative
example p = 11, r = 24 the index is 11 and the offset is -24. -/
theorem rhythm_mapping_arithmetic (p r : Int) :
    computeChordIndex p r = ((p - r).tmod 12 + 12).tmod 12 ∧
    0 ≤ computeChordIndex p r ∧ computeChordIndex p r ≤ 11 ∧
    computeOctaveOffset p r = (p - r).fdiv 12 * 12 ∧
    computeChordIndex p r + computeOctaveOffset p r = p - r ∧
    computeChordIndex 11 24 = 11 ∧ computeOctaveOffset 11 24 = -24 := by
  have hidx := computeChordIndex_eq_emod p r
  have hoff := computeOctaveOffset_eq_ediv p r
  have hm := Int.emod_nonneg (p - r) (b := 12) (by norm_num)
  have hlt := Int.emod_lt_of_pos (p - r) (b := 12) (by norm_num)
  refine ⟨?_, by omega, by omega, rfl, by omega, by decide, by decide⟩
  have h1 := Int.tmod_lt_of_pos (p - r) (b := 12) (by norm_num)
  have h2 := neg_twelve_lt_tmod (p - r)
  have h3 : ((p - r).tmod 12 + 12).tmod 12 = ((p - r).tmod 12 + 12) % 12 :=
    Int.tmod_eq_emod (by omega) (by norm_num)
  have h4 := tmod_fixup_eq_emod (p - r)
  have h5 := Int.tmod_add_tdiv (p - r) 12
  rw [hidx, h3]
  omega

/-- C7 counterexample: the spec's shift law `octaveOffset(p,r) =
octaveOffset(p+12,r) + 12` fails at p = 24, r = 24, where the left side is 0
and the right side is 24; the offset one octave higher is 12 more, not 12
less. -/
theorem octave_offset_shift_counterexample :
    ¬ (computeOctaveOffset 24 24 = computeOctaveOffset (24 + 12) 24 + 12) := by
  decide

/-- C7 amended: for all rhythm pitches p and roots r the chord index lies in
[0, 11] and is 12-periodic in p, and the octave offset one octave higher is
12 semitones more: `octaveOffset(p+12,r) = octaveOffset(p,r) + 12`. -/
theorem chord_index_periodicity_amended (p r : Int) :
    0 ≤ computeChordIndex p r ∧ computeChordIndex p r ≤ 11 ∧
    computeChordIndex (p + 12) r = computeChordIndex p r ∧
    computeOctaveOffset (p + 12) r = computeOctaveOffset p r + 12 := by
  have h1 := computeChordIndex_eq_emod p r
  have h2 := computeChordIndex_eq_emod (p + 12) r
  have h3 := computeOctaveOffset_eq_ediv p r
  have h4 := computeOctaveOffset_eq_ediv (p + 12) r
  have hm := Int.emod_nonneg (p - r) (b := 12) (by norm_num)
  have hlt := Int.emod_lt_of_pos (p - r) (b := 12) (by norm_num)
  have h5 : p + 12 - r = p - r + 12 := by ring
  rw [h5] at h2 h4
  refine ⟨by omega, by omega, by omega, by omega⟩

instance : IsRefl MidiMessage pitchLe :=
  ⟨fun a => le_refl a.noteNumber⟩

/-- Splitting the voices by owner key is filtering by owner key. -/
theorem stopPlayingNotesForRhythmOwner_eq_filter (l : List PlayingNote)
    (k : Int) :
    stopPlayingNotesForRhythmOwner l k =
      (l.filter (fun n => n.ownerRhythmNote == k),
       l.filter (fun n => !(n.ownerRhythmNote == k))) := by
  induction l with
  | nil => rfl
  | cons n rest ih =>
      by_cases h : n.ownerRhythmNote = k <;>
        simp [stopPlayingNotesForRhythmOwner, ih, List.filter_cons, h]

/-- Removing a chord note erases the first stored note with that note number
and reports whether one existed. -/
theorem removeChordNote_eq_eraseP (l : List MidiMessage) (n : Int) :
    removeChordNote l n =
      (l.any (fun m => m.noteNumber == n),
       l.eraseP (fun m => m.noteNumber == n)) := by
  induction l with
  | nil => rfl
  | cons m rest ih =>
      by_cases h : m.noteNumber = n <;>
        simp [removeChordNote, ih, List.eraseP_cons, List.any_cons, h]

/-- Insertion into the chord registry always yields a pitch-sorted list. -/
theorem sorted_insertChordNote (l : List MidiMessage) (n v c : Int) :
    List.Sorted pitchLe (insertChordNote l n v c) :=
  List.sorted_insertionSort pitchLe _

/-- Every chord-registry mutation preserves pitch-sortedness. -/
theorem sorted_applyChordOp (l : List MidiMessage) (op : ChordOp)
    (h : List.Sorted pitchLe l) :
    List.Sorted pitchLe (applyChordOp l op) := by
  cases op with
  | insert p v c => exact sorted_insertChordNote l p v c
  | remove p =>
      have he := removeChordNote_eq_eraseP l p
      show List.Sorted pitchLe (removeChordNote l p).2
      rw [he]
      exact List.Pairwise.sublist (List.eraseP_sublist l) h
  | clear => exact List.sorted_nil

/-- Folding chord-registry mutations preserves pitch-sortedness. -/
theorem sorted_foldl_applyChordOp (ops : List ChordOp) :
    ∀ l : List MidiMessage, List.Sorted pitchLe l →
      List.Sorted pitchLe (ops.foldl applyChordOp l) := by
  induction ops with
  | nil => exact fun l h => h
  | cons op rest ih =>
      intro l h
      exact ih (applyChordOp l op) (sorted_applyChordOp l op h)

/-- C9: chord registry sortedness invariant.  After any sequence of
insert/remove/clear operations from the empty registry the stored notes are
pitch-sorted, positional lookups in ascending index order yield
non-decreasing note numbers, insertion always appends a fresh note (one more
element, never deduplicated, the new list a permutation of the old plus the
new note), and removal erases exactly the first stored match, reporting
whether one was found. -/
theorem chord_registry_sorted_invariant :
    (∀ ops : List ChordOp, List.Sorted pitchLe (applyChordOps ops)) ∧
    (∀ (ops : List ChordOp) (i j : Int) (cm cn : MidiMessage), i ≤ j →
      getChordNoteByIndex (applyChordOps ops) i = some cm →
      getChordNoteByIndex (applyChordOps ops) j = some cn →
      cm.noteNumber ≤ cn.noteNumber) ∧
    (∀ (l : List MidiMessage) (n v c : Int),
      (insertChordNote l n v c).length = l.length + 1 ∧
      (insertChordNote l n v c).Perm (MidiMessage.noteOnMsg c n v :: l)) ∧
    (∀ (l : List MidiMessage) (n : Int),
      removeChordNote l n =
        (l.any (fun m => m.noteNumber == n),
         l.eraseP (fun m => m.noteNumber == n))) := by
  have hsorted : ∀ ops : List ChordOp,
      List.Sorted pitchLe (applyChordOps ops) := fun ops =>
    sorted_foldl_applyChordOp ops [] List.sorted_nil
  refine ⟨hsorted, ?_, ?_, removeChordNote_eq_eraseP⟩
  · intro ops i j cm cn hij hcm hcn
    unfold getChordNoteByIndex at hcm hcn
    set L := applyChordOps ops with hL
    by_cases hi : i < 0 || i ≥ (L.length : Int)
    · simp [hi] at hcm
    by_cases hj : j < 0 || j ≥ (L.length : Int)
    · simp [hj] at hcn
    simp only [hi, if_false, hj] at hcm hcn
    simp only [Bool.or_eq_true, decide_eq_true_eq, not_or, not_lt, not_le]
      at hi hj
    have hmi : i.toNat < L.length := by omega
    have hmj : j.toNat < L.length := by omega
    have hgi : L.get ⟨i.toNat, hmi⟩ = cm := by
      rw [List.get?_eq_get hmi] at hcm
      exact Option.some_injective _ hcm
    have hgj : L.get ⟨j.toNat, hmj⟩ = cn := by
      rw [List.get?_eq_get hmj] at hcn
      exact Option.some_injective _ hcn
    have hle : (⟨i.toNat, hmi⟩ : Fin L.length) ≤ ⟨j.toNat, hmj⟩ := by
      simp only [Fin.mk_le_mk]
      omega
    have := (hsorted ops).rel_get_of_le hle
    rw [hgi, hgj] at this
    exact this
  · intro l n v c
    constructor
    · unfold insertChordNote
      rw [(List.perm_insertionSort pitchLe _).length_eq]
      simp
    · unfold insertChordNote
      exact (List.perm_insertionSort pitchLe _).trans
        (List.perm_append_singleton _ l)

/-- C9 witness: two insertions into the empty registry, the higher pitch
first; the registry is sorted, lookups at indices 0 and 1 are non-decreasing,
the second insert grew a one-element registry to two, and removal of pitch 64
finds and erases it. -/
theorem chord_registry_sorted_invariant_witness :
    (MidiMessage.noteOnMsg 1 60 100).noteNumber ≤
      (MidiMessage.noteOnMsg 1 64 100).noteNumber := by
  have h := chord_registry_sorted_invariant
  exact h.2.1 [ChordOp.insert 64 100 1, ChordOp.insert 60 100 1] 0 1
    (MidiMessage.noteOnMsg 1 60 100) (MidiMessage.noteOnMsg 1 64 100)
    (by decide) (by decide) (by decide)

/-- Splitting by owner key, unfolded into the coordinator's stop helper. -/
theorem stopRhythmOwnedNotes_eq (cfg : CoordConfig) (st : CoordState)
    (pos k : Int) :
    stopRhythmOwnedNotes cfg st pos k =
      (⟨st.chordNotes,
        st.playingNotes.filter (fun n => !(n.ownerRhythmNote == k))⟩,
       (st.playingNotes.filter (fun n => n.ownerRhythmNote == k)).map
         (fun s =>
           ⟨MidiMessage.noteOffMsg cfg.outputChannel s.getNoteNumber
              s.getVelocity, pos⟩)) := by
  unfold stopRhythmOwnedNotes
  rw [stopPlayingNotesForRhythmOwner_eq_filter]

/-- A rhythm-channel note-on with nonzero velocity dispatches to the
retrigger-then-start helper. -/
theorem applyEvent_rhythm_noteOn (cfg : CoordConfig) (st : CoordState)
    (p v pos : Int) (hv : v ≠ 0) :
    applyEvent cfg st
        ⟨MidiMessage.noteOnMsg cfg.rhythmInputChannel p v, pos⟩ =
      startRhythmOwnedNote cfg st pos p := by
  simp [applyEvent, MidiMessage.noteOnMsg, isNoteOffLike,
    MidiMessage.isNoteOff, MidiMessage.isNoteOn, hv]

/-- A rhythm-channel note-off-like event dispatches to the ownership-based
stop helper. -/
theorem applyEvent_rhythm_noteOffLike (cfg : CoordConfig) (st : CoordState)
    (msg : MidiMessage) (pos : Int)
    (hch : msg.channel = cfg.rhythmInputChannel)
    (hoff : isNoteOffLike msg = true) :
    applyEvent cfg st ⟨msg, pos⟩ =
      stopRhythmOwnedNotes cfg st pos msg.noteNumber := by
  simp [applyEvent, hch, hoff]

/-- Events not on the rhythm channel never touch the voice tracker. -/
theorem applyEvent_playing_of_ne_rhythm (cfg : CoordConfig) (st : CoordState)
    (e : TimedEvent) (h : e.message.channel ≠ cfg.rhythmInputChannel) :
    (applyEvent cfg st e).1.playingNotes = st.playingNotes := by
  unfold applyEvent
  simp only [beq_iff_eq, h, if_false]
  split
  · split
    · rfl
    · split
      · rfl
      · rfl
  · rfl

/-- A run of events off the rhythm channel leaves the voice tracker
unchanged. -/
theorem applyEvents_playing_of_ne_rhythm (cfg : CoordConfig)
    (evts : List TimedEvent) :
    ∀ st : CoordState,
      (∀ e ∈ evts, e.message.channel ≠ cfg.rhythmInputChannel) →
      (applyEvents cfg st evts).1.playingNotes = st.playingNotes := by
  induction evts with
  | nil => intro st _; rfl
  | cons e rest ih =>
      intro st h
      have h1 := applyEvent_playing_of_ne_rhythm cfg st e
        (h e (List.mem_cons_self e rest))
      have h2 := ih (applyEvent cfg st e).1
        (fun x hx => h x (List.mem_cons_of_mem e hx))
      simp only [applyEvents]
      rw [h2, h1]

/-- Filtering with the negated predicate recovers the whole list when the
positive filter is empty. -/
theorem filter_not_of_filter_eq_nil {α : Type} (q : α → Bool) (l : List α)
    (h : l.filter q = []) : l.filter (fun x => !(q x)) = l := by
  rw [List.filter_eq_self]
  intro a ha
  have h2 := List.filter_eq_nil_iff.mp h a ha
  simp only [Bool.not_eq_true] at h2
  simp [h2]

/-- Filtering twice with a predicate and its negation yields nothing. -/
theorem filter_filter_not_eq_nil {α : Type} (q : α → Bool) (l : List α) :
    (l.filter (fun x => !(q x))).filter q = [] := by
  rw [List.filter_filter, List.filter_eq_nil_iff]
  intro a _
  simp

/-- C8: silent degradation on an invalid chord index.  Positional lookup
outside [0, size) returns "not found" rather than failing, and a rhythm
note-on whose computed chord index is not found emits only note-offs (never
a note-on) and leaves the rhythm key with no active voice. -/
theorem silent_degradation :
    (∀ (chordNotes : List MidiMessage) (idx : Int),
      idx < 0 ∨ (chordNotes.length : Int) ≤ idx →
      getChordNoteByIndex chordNotes idx = none) ∧
    (∀ (cfg : CoordConfig) (st : CoordState) (p v pos : Int),
      v ≠ 0 →
      getChordNoteByIndex st.chordNotes
          (computeChordIndex p cfg.rhythmRootNote) = none →
      (∀ e ∈ (applyEvent cfg st
          ⟨MidiMessage.noteOnMsg cfg.rhythmInputChannel p v, pos⟩).2,
        e.message.kind = MsgKind.noteOff) ∧
      (CoordState.playingNotes (applyEvent cfg st
          ⟨MidiMessage.noteOnMsg cfg.rhythmInputChannel p v, pos⟩).1).filter
        (fun n => n.ownerRhythmNote == p) = []) := by
  constructor
  · intro chordNotes idx h
    unfold getChordNoteByIndex
    have : (idx < 0 || idx ≥ (chordNotes.length : Int)) = true := by
      rcases h with h | h <;> simp [h]
    rw [if_pos this]
  · intro cfg st p v pos hv hmiss
    rw [applyEvent_rhythm_noteOn cfg st p v pos hv]
    unfold startRhythmOwnedNote
    rw [stopRhythmOwnedNotes_eq]
    simp only [hmiss]
    constructor
    · intro e he
      simp only [List.mem_map] at he
      obtain ⟨s, _, hs⟩ := he
      rw [← hs]
      rfl
    · exact filter_filter_not_eq_nil _ _

/-- C8 witness: with an empty chord registry, index 0 is "not found" and a
rhythm note-on(24) produces no events and no voice. -/
theorem silent_degradation_witness :
    getChordNoteByIndex [] 0 = none ∧
    (CoordState.playingNotes (applyEvent defaultConfig ⟨[], []⟩
        ⟨MidiMessage.noteOnMsg 16 24 90, 5⟩).1).filter
      (fun n => n.ownerRhythmNote == 24) = [] := by
  constructor
  · exact silent_degradation.1 [] 0 (Or.inr (by decide))
  · exact (silent_degradation.2 defaultConfig ⟨[], []⟩ 24 90 5 (by decide)
      (by decide)).2

/-- C10: frame property of owner-keyed stopping.  Stopping by owner key
returns exactly the voices with that key and keeps every other voice in its
original relative order, and a voice created by `startPlayingNote` carries
owner key -1, so stopping by any MIDI pitch in [0, 127] never removes it. -/
theorem stop_owner_frame :
    (∀ (playingNotes : List PlayingNote) (k : Int),
      stopPlayingNotesForRhythmOwner playingNotes k =
        (playingNotes.filter (fun n => n.ownerRhythmNote == k),
         playingNotes.filter (fun n => !(n.ownerRhythmNote == k)))) ∧
    (∀ (chordNotes : List MidiMessage) (playingNotes : List PlayingNote)
        (chordIndex octaveOffset : Int) (cn : MidiMessage),
      getChordNoteByIndex chordNotes chordIndex = some cn →
      startPlayingNote chordNotes playingNotes chordIndex octaveOffset =
        (playingNotes ++
          [⟨MidiMessage.noteOnMsg 2 (cn.noteNumber + octaveOffset)
              cn.velocity, chordIndex, octaveOffset, -1⟩],
         cn.noteNumber + octaveOffset) ∧
      (∀ p : Int, 0 ≤ p → p ≤ 127 →
        (stopPlayingNotesForRhythmOwner
            (playingNotes ++
              [⟨MidiMessage.noteOnMsg 2 (cn.noteNumber + octaveOffset)
                  cn.velocity, chordIndex, octaveOffset, -1⟩]) p).2 =
          playingNotes.filter (fun n => !(n.ownerRhythmNote == p)) ++
            [⟨MidiMessage.noteOnMsg 2 (cn.noteNumber + octaveOffset)
                cn.velocity, chordIndex, octaveOffset, -1⟩])) := by
  refine ⟨stopPlayingNotesForRhythmOwner_eq_filter, ?_⟩
  intro chordNotes playingNotes chordIndex octaveOffset cn hcn
  constructor
  · unfold startPlayingNote
    rw [hcn]
  · intro p hp0 hp127
    rw [stopPlayingNotesForRhythmOwner_eq_filter]
    simp only [List.filter_append]
    have hne : ((-1 : Int) == p) = false := by
      simp only [beq_eq_false_iff_ne, ne_eq]
      omega
    simp [List.filter_cons, hne]

/-- C10 witness: starting a voice from chord index 0 with octave offset 12
appends an owner-(-1) voice, and stopping by rhythm pitch 24 keeps it. -/
theorem stop_owner_frame_witness :
    startPlayingNote [MidiMessage.noteOnMsg 1 60 100] [] 0 12 =
      ([⟨MidiMessage.noteOnMsg 2 72 100, 0, 12, -1⟩], 72) ∧
    (stopPlayingNotesForRhythmOwner
        [⟨MidiMessage.noteOnMsg 2 72 100, 0, 12, -1⟩] 24).2 =
      [⟨MidiMessage.noteOnMsg 2 72 100, 0, 12, -1⟩] := by
  have h := stop_owner_frame.2 [MidiMessage.noteOnMsg 1 60 100] [] 0 12
    (MidiMessage.noteOnMsg 1 60 100) (by decide)
  exact ⟨h.1, (h.2 24 (by decide) (by decide))⟩

/-- Adding an event at position 0 to a buffer whose events all sit at
position 0 appends it at the end (the JUCE buffer keeps arrival order at
equal positions). -/
theorem addEvent_zero (b : List TimedEvent) (m : MidiMessage)
    (h : ∀ e ∈ b, e.samplePosition = 0) :
    addEvent b m 0 = b ++ [⟨m, 0⟩] := by
  induction b with
  | nil => rfl
  | cons e t ih =>
      have he := h e (List.mem_cons_self e t)
      have hnot : ¬ ((0 : Int) < e.samplePosition) := by omega
      simp only [addEvent, hnot, if_false, List.cons_append]
      rw [ih (fun x hx => h x (List.mem_cons_of_mem e hx))]

/-- Folding `addEvent` at position 0 over a list of messages appends them in
order. -/
theorem foldl_addEvent_zero (ms : List MidiMessage) :
    ∀ b : List TimedEvent, (∀ e ∈ b, e.samplePosition = 0) →
      ms.foldl (fun b m => addEvent b m 0) b =
        b ++ ms.map (fun m => (⟨m, 0⟩ : TimedEvent)) := by
  induction ms with
  | nil => intro b _; simp
  | cons m t ih =>
      intro b hb
      simp only [List.foldl_cons, List.map_cons]
      rw [addEvent_zero b m hb]
      have hball : ∀ e ∈ b ++ [(⟨m, 0⟩ : TimedEvent)],
          e.samplePosition = 0 := by
        intro e he
        rcases List.mem_append.mp he with h | h
        · exact hb e h
        · simp only [List.mem_singleton] at h
          rw [h]
      rw [ih _ hball]
      simp

/-- C5: transport-stop flush.  On the playing-to-stopped transition with a
buffer attached, the coordinator replaces the buffer's contents with exactly
one output-channel note-off at sample position 0 per active voice, carrying
that voice's stored note number and velocity, and afterwards both the voice
tracker and the chord registry are empty. -/
theorem transport_stop_flush (cfg : CoordConfig) (st : CoordState)
    (buffer : List TimedEvent) :
    onIsPlayingChanged cfg st true false (some buffer) =
      (⟨[], []⟩,
       some (st.playingNotes.map (fun pn =>
         (⟨MidiMessage.noteOffMsg cfg.outputChannel pn.getNoteNumber
             pn.getVelocity, 0⟩ : TimedEvent)))) := by
  unfold onIsPlayingChanged
  rw [if_pos ⟨rfl, rfl⟩]
  simp only [Prod.mk.injEq]
  constructor
  · rfl
  · unfold getAllPlayingNotesAsNoteOffs
    rw [foldl_addEvent_zero _ [] (by intro e he; cases he)]
    simp [List.map_map, Function.comp]

/-- Failing the comparator strictly reverses the lexicographic key. -/
theorem not_eventLe_key (cfg : CoordConfig) (a b : TimedEvent)
    (h : ¬ eventLe cfg a b) :
    b.samplePosition < a.samplePosition ∨
      (b.samplePosition = a.samplePosition ∧
        phasePriority cfg b.message < phasePriority cfg a.message) := by
  unfold eventLe at h
  push_neg at h
  omega

/-- Key-filter through an ordered insertion: the inserted event lands in
front of the events that share its (position, priority) key, and events with
other keys are untouched. -/
theorem filter_key_orderedInsert (cfg : CoordConfig) (pos pri : Int)
    (a : TimedEvent) (l : List TimedEvent) :
    (List.orderedInsert (eventLe cfg) a l).filter
        (fun e => e.samplePosition == pos &&
          phasePriority cfg e.message == pri) =
      if a.samplePosition == pos && phasePriority cfg a.message == pri then
        a :: l.filter (fun e => e.samplePosition == pos &&
          phasePriority cfg e.message == pri)
      else
        l.filter (fun e => e.samplePosition == pos &&
          phasePriority cfg e.message == pri) := by
  induction l with
  | nil => simp [List.orderedInsert, List.filter_cons]
  | cons b t ih =>
      by_cases hle : eventLe cfg a b
      · simp only [List.orderedInsert, if_pos hle]
        rw [List.filter_cons]
      · simp only [List.orderedInsert, if_neg hle]
        have hkey := not_eventLe_key cfg a b hle
        by_cases hka : (a.samplePosition == pos &&
            phasePriority cfg a.message == pri) = true
        · have hkb : (b.samplePosition == pos &&
              phasePriority cfg b.message == pri) = false := by
            simp only [Bool.and_eq_true, beq_iff_eq] at hka
            simp only [Bool.and_eq_false_iff, beq_eq_false_iff_ne, ne_eq]
            rcases hkey with hk | ⟨hk1, hk2⟩
            · left
              intro hc
              omega
            · right
              intro hc
              omega
          simp only [List.filter_cons, hka, hkb, if_true, if_false,
            Bool.false_eq_true, ih]
        · have hka2 : (a.samplePosition == pos &&
              phasePriority cfg a.message == pri) = false :=
            Bool.eq_false_iff.mpr hka
          simp only [List.filter_cons, hka2, Bool.false_eq_true, if_false,
            ih]

/-- Key-filter through the stable sort: for every (position, priority) key,
the sorted list restricted to that key equals the input restricted to that
key, i.e. tied events keep their input order. -/
theorem filter_key_sortEvents (cfg : CoordConfig) (pos pri : Int)
    (l : List TimedEvent) :
    (sortEvents cfg l).filter
        (fun e => e.samplePosition == pos &&
          phasePriority cfg e.message == pri) =
      l.filter (fun e => e.samplePosition == pos &&
        phasePriority cfg e.message == pri) := by
  induction l with
  | nil => rfl
  | cons x t ih =>
      show (List.orderedInsert (eventLe cfg) x
          (List.insertionSort (eventLe cfg) t)).filter _ = _
      rw [filter_key_orderedInsert cfg pos pri x
        (List.insertionSort (eventLe cfg) t), List.filter_cons]
      split
      · exact congrArg (List.cons x) ih
      · exact ih

/-- Rewriting the note-off-like test into the kind/velocity form: an
explicit note-off, or a note-on with velocity 0. -/
theorem isNoteOffLike_eq (m : MidiMessage) :
    isNoteOffLike m =
      (m.kind == MsgKind.noteOff ||
        (m.kind == MsgKind.noteOn && m.velocity == 0)) := by
  unfold isNoteOffLike MidiMessage.isNoteOff MidiMessage.isNoteOn
  by_cases hv : m.velocity = 0 <;> simp [hv]

/-- Case analysis of the phase-priority function, for messages with a
non-negative velocity and distinct chord/rhythm channels: 0 for
rhythm-channel note-off-likes, 1 for chord-channel note messages, 2 for
rhythm-channel note-ons of positive velocity, 3 for everything else. -/
theorem phasePriority_cases (cfg : CoordConfig)
    (hch : cfg.chordInputChannel ≠ cfg.rhythmInputChannel)
    (m : MidiMessage) (_hvel : 0 ≤ m.velocity) :
    (m.channel = cfg.rhythmInputChannel ∧
      (m.kind = MsgKind.noteOff ∨
        (m.kind = MsgKind.noteOn ∧ m.velocity = 0)) →
      phasePriority cfg m = 0) ∧
    (m.channel = cfg.chordInputChannel ∧
      (m.kind = MsgKind.noteOff ∨ m.kind = MsgKind.noteOn) →
      phasePriority cfg m = 1) ∧
    (m.channel = cfg.rhythmInputChannel ∧ m.kind = MsgKind.noteOn ∧
      0 < m.velocity → phasePriority cfg m = 2) ∧
    (¬(m.channel = cfg.rhythmInputChannel ∧
        (m.kind = MsgKind.noteOff ∨ m.kind = MsgKind.noteOn)) ∧
      ¬(m.channel = cfg.chordInputChannel ∧
        (m.kind = MsgKind.noteOff ∨ m.kind = MsgKind.noteOn)) →
      phasePriority cfg m = 3) := by
  refine ⟨?_, ?_, ?_, ?_⟩
  · rintro ⟨hc, hk | ⟨hk, hv⟩⟩
    · simp [phasePriority, isNoteOffLike_eq, hc, hk]
    · simp [phasePriority, isNoteOffLike_eq, hc, hk, hv]
  · rintro ⟨hc, hk⟩
    have hr : m.channel ≠ cfg.rhythmInputChannel := by
      rw [hc]
      exact hch
    rcases hk with hk | hk
    · simp [phasePriority, isNoteOffLike_eq, hc, hk, hr, hch]
    · by_cases hv : m.velocity = 0 <;>
        simp [phasePriority, isNoteOffLike_eq, MidiMessage.isNoteOn, hc,
          hk, hr, hv, hch]
  · rintro ⟨hc, hk, hv⟩
    have hv0 : m.velocity ≠ 0 := by omega
    simp [phasePriority, isNoteOffLike_eq, MidiMessage.isNoteOn, hc, hk,
      hv0]
  · rintro ⟨hnr, hnc⟩
    by_cases hr : m.channel = cfg.rhythmInputChannel
    · have hk : m.kind ≠ MsgKind.noteOff ∧ m.kind ≠ MsgKind.noteOn := by
        constructor <;> intro hk <;> exact hnr ⟨hr, by simp [hk]⟩
      have hcc : m.channel ≠ cfg.chordInputChannel := by
        rw [hr]
        exact fun h => hch h.symm
      cases hkk : m.kind with
      | noteOn => exact absurd hkk hk.2
      | noteOff => exact absurd hkk hk.1
      | other =>
          simp [phasePriority, isNoteOffLike_eq, MidiMessage.isNoteOn,
            hr, hcc, hkk]
    · by_cases hcc : m.channel = cfg.chordInputChannel
      · have hk : m.kind ≠ MsgKind.noteOff ∧ m.kind ≠ MsgKind.noteOn := by
          constructor <;> intro hk <;> exact hnc ⟨hcc, by simp [hk]⟩
        cases hkk : m.kind with
        | noteOn => exact absurd hkk hk.2
        | noteOff => exact absurd hkk hk.1
        | other =>
            simp [phasePriority, isNoteOffLike_eq, MidiMessage.isNoteOn,
              hr, hcc, hkk]
      · simp [phasePriority, hr, hcc]

/-- C2: causal event ordering.  `processBlock` applies the events in the
order of the stable sort on (sample position ascending, phase priority
ascending): the sorted working list is a permutation of the input, pairwise
ordered by the lexicographic key, events tied on both keys keep their input
order (key-filter characterisation), the state produced by `processBlock` is
the one obtained by applying events in exactly that order, and the phase
priority is 0 for rhythm-channel note-off-likes, 1 for chord-channel note
messages, 2 for rhythm-channel note-ons of positive velocity, 3 for
everything else. -/
theorem processBlock_causal_ordering (cfg : CoordConfig)
    (l : List TimedEvent)
    (hch : cfg.chordInputChannel ≠ cfg.rhythmInputChannel) :
    (sortEvents cfg l).Perm l ∧
    List.Pairwise (fun a b : TimedEvent =>
      a.samplePosition < b.samplePosition ∨
        (a.samplePosition = b.samplePosition ∧
          phasePriority cfg a.message ≤ phasePriority cfg b.message))
      (sortEvents cfg l) ∧
    (∀ pos pri : Int,
      (sortEvents cfg l).filter
          (fun e => e.samplePosition == pos &&
            phasePriority cfg e.message == pri) =
        l.filter (fun e => e.samplePosition == pos &&
          phasePriority cfg e.message == pri)) ∧
    (∀ st : CoordState,
      (processBlock cfg st l).1 =
        (applyEvents cfg st (sortEvents cfg l)).1) ∧
    (∀ m : MidiMessage, 0 ≤ m.velocity →
      (m.channel = cfg.rhythmInputChannel ∧
        (m.kind = MsgKind.noteOff ∨
          (m.kind = MsgKind.noteOn ∧ m.velocity = 0)) →
        phasePriority cfg m = 0) ∧
      (m.channel = cfg.chordInputChannel ∧
        (m.kind = MsgKind.noteOff ∨ m.kind = MsgKind.noteOn) →
        phasePriority cfg m = 1) ∧
      (m.channel = cfg.rhythmInputChannel ∧ m.kind = MsgKind.noteOn ∧
        0 < m.velocity → phasePriority cfg m = 2) ∧
      (¬(m.channel = cfg.rhythmInputChannel ∧
          (m.kind = MsgKind.noteOff ∨ m.kind = MsgKind.noteOn)) ∧
        ¬(m.channel = cfg.chordInputChannel ∧
          (m.kind = MsgKind.noteOff ∨ m.kind = MsgKind.noteOn)) →
        phasePriority cfg m = 3)) := by
  refine ⟨List.perm_insertionSort (eventLe cfg) l,
    List.sorted_insertionSort (eventLe cfg) l,
    fun pos pri => filter_key_sortEvents cfg pos pri l,
    ?_, phasePriority_cases cfg hch⟩
  intro st
  by_cases hp : cfg.passThroughOtherMidi <;> simp [processBlock, hp]

/-- C2 witness: with the default configuration, the sorted working list for
four same-position events is a permutation of the input. -/
theorem processBlock_causal_ordering_witness :
    (sortEvents defaultConfig
      [⟨MidiMessage.noteOnMsg 16 24 90, 0⟩,
       ⟨MidiMessage.noteOnMsg 1 63 100, 0⟩,
       ⟨MidiMessage.noteOffMsg 16 24 0, 0⟩,
       ⟨MidiMessage.noteOnMsg 5 9 9, 0⟩]).Perm
      [⟨MidiMessage.noteOnMsg 16 24 90, 0⟩,
       ⟨MidiMessage.noteOnMsg 1 63 100, 0⟩,
       ⟨MidiMessage.noteOffMsg 16 24 0, 0⟩,
       ⟨MidiMessage.noteOnMsg 5 9 9, 0⟩] :=
  (processBlock_causal_ordering defaultConfig _ (by decide)).1

/-- Resolution case of the (re)trigger helper: stop the owner's voices, look
up the chord note, record the concrete output note with the owner key and
emit the note-offs followed by the output note-on. -/
theorem startRhythmOwnedNote_some (cfg : CoordConfig) (st : CoordState)
    (pos p : Int) (cn : MidiMessage)
    (hcn : getChordNoteByIndex st.chordNotes
      (computeChordIndex p cfg.rhythmRootNote) = some cn) :
    startRhythmOwnedNote cfg st pos p =
      (⟨st.chordNotes,
        st.playingNotes.filter (fun n => !(n.ownerRhythmNote == p)) ++
          [⟨MidiMessage.noteOnMsg cfg.outputChannel
              (cn.noteNumber + computeOctaveOffset p cfg.rhythmRootNote)
              cn.velocity,
            computeChordIndex p cfg.rhythmRootNote,
            computeOctaveOffset p cfg.rhythmRootNote, p⟩]⟩,
       (st.playingNotes.filter (fun n => n.ownerRhythmNote == p)).map
           (fun s =>
             (⟨MidiMessage.noteOffMsg cfg.outputChannel s.getNoteNumber
                 s.getVelocity, pos⟩ : TimedEvent)) ++
         [⟨MidiMessage.noteOnMsg cfg.outputChannel
             (cn.noteNumber + computeOctaveOffset p cfg.rhythmRootNote)
             cn.velocity, pos⟩]) := by
  unfold startRhythmOwnedNote
  rw [stopRhythmOwnedNotes_eq]
  simp only [hcn, startPlayingRhythmOwnedNote]

/-- C1: ownership-based note-off matching.  A rhythm note-on that resolves
to a chord note stores the concrete output pitch and velocity in the voice
it creates and emits exactly that note-on; chord-channel (or any
non-rhythm) events leave the voice tracker untouched; and a later rhythm
note-off-like event for the same rhythm pitch, under an arbitrary chord
registry (any result of insert/remove/clear mutations), emits exactly one
note-off carrying the stored pitch and velocity. -/
theorem ownership_note_off_matching (cfg : CoordConfig) (st : CoordState)
    (p vOn pos1 : Int) (cn : MidiMessage) (outPitch : Int)
    (voice : PlayingNote)
    (hvOn : vOn ≠ 0)
    (hNoVoice : st.playingNotes.filter
      (fun n => n.ownerRhythmNote == p) = [])
    (hResolve : getChordNoteByIndex st.chordNotes
      (computeChordIndex p cfg.rhythmRootNote) = some cn)
    (houtPitch : outPitch =
      cn.noteNumber + computeOctaveOffset p cfg.rhythmRootNote)
    (hvoice : voice =
      ⟨MidiMessage.noteOnMsg cfg.outputChannel outPitch cn.velocity,
        computeChordIndex p cfg.rhythmRootNote,
        computeOctaveOffset p cfg.rhythmRootNote, p⟩) :
    applyEvent cfg st
        ⟨MidiMessage.noteOnMsg cfg.rhythmInputChannel p vOn, pos1⟩ =
      (⟨st.chordNotes, st.playingNotes ++ [voice]⟩,
       [⟨MidiMessage.noteOnMsg cfg.outputChannel outPitch cn.velocity,
         pos1⟩]) ∧
    (∀ evts : List TimedEvent,
      (∀ e ∈ evts, e.message.channel ≠ cfg.rhythmInputChannel) →
      (applyEvents cfg ⟨st.chordNotes, st.playingNotes ++ [voice]⟩
          evts).1.playingNotes = st.playingNotes ++ [voice]) ∧
    (∀ (chordNotes2 : List MidiMessage) (offMsg : MidiMessage)
        (pos2 : Int),
      offMsg.channel = cfg.rhythmInputChannel →
      offMsg.noteNumber = p →
      isNoteOffLike offMsg = true →
      applyEvent cfg ⟨chordNotes2, st.playingNotes ++ [voice]⟩
          ⟨offMsg, pos2⟩ =
        (⟨chordNotes2, st.playingNotes⟩,
         [⟨MidiMessage.noteOffMsg cfg.outputChannel outPitch cn.velocity,
           pos2⟩])) := by
  have hkeep := filter_not_of_filter_eq_nil
    (fun n : PlayingNote => n.ownerRhythmNote == p) st.playingNotes hNoVoice
  refine ⟨?_, ?_, ?_⟩
  · rw [applyEvent_rhythm_noteOn cfg st p vOn pos1 hvOn,
      startRhythmOwnedNote_some cfg st pos1 p cn hResolve]
    rw [hkeep, hNoVoice, hvoice, houtPitch]
    rfl
  · intro evts hevts
    exact applyEvents_playing_of_ne_rhythm cfg evts _ hevts
  · intro chordNotes2 offMsg pos2 hchn hnum hoff
    rw [applyEvent_rhythm_noteOffLike cfg _ offMsg pos2 hchn hoff,
      stopRhythmOwnedNotes_eq, hnum]
    simp only [List.filter_append, hNoVoice, List.nil_append, hkeep]
    have hown : (voice.ownerRhythmNote == p) = true := by
      rw [hvoice]
      exact beq_self_eq_true p
    simp only [List.filter_cons, List.filter_nil, hown, if_true,
      List.map_cons, List.map_nil, List.append_nil]
    rw [hvoice]
    simp [PlayingNote.getNoteNumber, PlayingNote.getVelocity,
      MidiMessage.noteOnMsg]

/-- C1 witness (Scenario C): the voice for rhythm pitch 24 sounded output
pitch 60 from chord {60, 64, 67}; after the chord was edited to {63, 64, 67}
the rhythm note-off(24) still emits note-off(60) with the stored velocity,
not note-off(63). -/
theorem ownership_note_off_matching_witness :
    applyEvent defaultConfig
        ⟨[MidiMessage.noteOnMsg 1 63 100, MidiMessage.noteOnMsg 1 64 100,
          MidiMessage.noteOnMsg 1 67 100],
         [⟨MidiMessage.noteOnMsg 2 60 100, 0, 0, 24⟩]⟩
        ⟨MidiMessage.noteOffMsg 16 24 64, 40⟩ =
      (⟨[MidiMessage.noteOnMsg 1 63 100, MidiMessage.noteOnMsg 1 64 100,
          MidiMessage.noteOnMsg 1 67 100], []⟩,
       [⟨MidiMessage.noteOffMsg 2 60 100, 40⟩]) := by
  have h := ownership_note_off_matching defaultConfig
    ⟨[MidiMessage.noteOnMsg 1 60 100, MidiMessage.noteOnMsg 1 64 100,
      MidiMessage.noteOnMsg 1 67 100], []⟩
    24 90 0 (MidiMessage.noteOnMsg 1 60 100) 60
    ⟨MidiMessage.noteOnMsg 2 60 100, 0, 0, 24⟩
    (by decide) (by decide) (by decide) (by decide) (by decide)
  exact h.2.2
    [MidiMessage.noteOnMsg 1 63 100, MidiMessage.noteOnMsg 1 64 100,
     MidiMessage.noteOnMsg 1 67 100]
    (MidiMessage.noteOffMsg 16 24 64) 40 (by decide) (by decide)
    (by decide)

/-- C3: retrigger determinism.  A second rhythm note-on for a pitch whose
single voice is still sounding first emits exactly one note-off for that
voice and then exactly one note-on for the new voice, and afterwards exactly
one voice with that owner key exists. -/
theorem retrigger_determinism (cfg : CoordConfig) (st : CoordState)
    (p v pos : Int) (voice : PlayingNote) (cn : MidiMessage)
    (outPitch : Int) (newVoice : PlayingNote)
    (hv : v ≠ 0)
    (hOne : st.playingNotes.filter
      (fun n => n.ownerRhythmNote == p) = [voice])
    (hResolve : getChordNoteByIndex st.chordNotes
      (computeChordIndex p cfg.rhythmRootNote) = some cn)
    (houtPitch : outPitch =
      cn.noteNumber + computeOctaveOffset p cfg.rhythmRootNote)
    (hnew : newVoice =
      ⟨MidiMessage.noteOnMsg cfg.outputChannel outPitch cn.velocity,
        computeChordIndex p cfg.rhythmRootNote,
        computeOctaveOffset p cfg.rhythmRootNote, p⟩) :
    applyEvent cfg st
        ⟨MidiMessage.noteOnMsg cfg.rhythmInputChannel p v, pos⟩ =
      (⟨st.chordNotes,
        st.playingNotes.filter (fun n => !(n.ownerRhythmNote == p)) ++
          [newVoice]⟩,
       [⟨MidiMessage.noteOffMsg cfg.outputChannel voice.getNoteNumber
           voice.getVelocity, pos⟩,
        ⟨MidiMessage.noteOnMsg cfg.outputChannel outPitch cn.velocity,
          pos⟩]) ∧
    (st.playingNotes.filter (fun n => !(n.ownerRhythmNote == p)) ++
        [newVoice]).filter (fun n => n.ownerRhythmNote == p) =
      [newVoice] := by
  constructor
  · rw [applyEvent_rhythm_noteOn cfg st p v pos hv,
      startRhythmOwnedNote_some cfg st pos p cn hResolve]
    rw [hOne, hnew, houtPitch]
    rfl
  · rw [List.filter_append, filter_filter_not_eq_nil, List.nil_append]
    have hown : (newVoice.ownerRhythmNote == p) = true := by
      rw [hnew]
      exact beq_self_eq_true p
    simp only [List.filter_cons, List.filter_nil, hown, if_true]

/-- C3 witness (Scenario E): a second note-on(24) while the voice for owner
24 sounds output pitch 60 emits exactly note-off(60) then note-on(60), with
one voice owned by 24 afterwards. -/
theorem retrigger_determinism_witness :
    applyEvent defaultConfig
        ⟨[MidiMessage.noteOnMsg 1 60 100, MidiMessage.noteOnMsg 1 64 100,
          MidiMessage.noteOnMsg 1 67 100],
         [⟨MidiMessage.noteOnMsg 2 60 100, 0, 0, 24⟩]⟩
        ⟨MidiMessage.noteOnMsg 16 24 90, 6⟩ =
      (⟨[MidiMessage.noteOnMsg 1 60 100, MidiMessage.noteOnMsg 1 64 100,
          MidiMessage.noteOnMsg 1 67 100],
        [⟨MidiMessage.noteOnMsg 2 60 100, 0, 0, 24⟩]⟩,
       [⟨MidiMessage.noteOffMsg 2 60 100, 6⟩,
        ⟨MidiMessage.noteOnMsg 2 60 100, 6⟩]) := by
  have h := retrigger_determinism defaultConfig
    ⟨[MidiMessage.noteOnMsg 1 60 100, MidiMessage.noteOnMsg 1 64 100,
      MidiMessage.noteOnMsg 1 67 100],
     [⟨MidiMessage.noteOnMsg 2 60 100, 0, 0, 24⟩]⟩
    24 90 6 ⟨MidiMessage.noteOnMsg 2 60 100, 0, 0, 24⟩
    (MidiMessage.noteOnMsg 1 60 100) 60
    ⟨MidiMessage.noteOnMsg 2 60 100, 0, 0, 24⟩
    (by decide) (by decide) (by decide) (by decide) (by decide)
  exact h.1

/-- Buffer insertion is a permutation of consing the new event. -/
theorem addEvent_perm (b : List TimedEvent) (m : MidiMessage) (pos : Int) :
    (addEvent b m pos).Perm (⟨m, pos⟩ :: b) := by
  induction b with
  | nil => exact List.Perm.refl _
  | cons e t ih =>
      unfold addEvent
      split
      · exact List.Perm.refl _
      · exact (ih.cons e).trans (List.Perm.swap _ _ _)

/-- Folding buffer insertions is a permutation of appending the events. -/
theorem addEvents_perm (l : List TimedEvent) :
    ∀ b : List TimedEvent, (addEvents b l).Perm (b ++ l) := by
  induction l with
  | nil => intro b; simp [addEvents]
  | cons e t ih =>
      intro b
      unfold addEvents
      have h1 := ih (addEvent b e.message e.samplePosition)
      have h2 : (addEvent b e.message e.samplePosition ++ t).Perm
          (b ++ e :: t) := by
        have h3 := (addEvent_perm b e.message e.samplePosition).append_right t
        exact h3.trans List.perm_middle.symm
      exact h1.trans h2

/-- Stopped-voice note-offs are emitted at the event's sample position. -/
theorem stopRhythmOwnedNotes_out_pos (cfg : CoordConfig) (st : CoordState)
    (pos k : Int) :
    ∀ o ∈ (stopRhythmOwnedNotes cfg st pos k).2,
      o.samplePosition = pos := by
  rw [stopRhythmOwnedNotes_eq]
  intro o ho
  simp only [List.mem_map] at ho
  obtain ⟨s, _, hs⟩ := ho
  rw [← hs]

/-- All events of a (re)trigger are emitted at the event's sample
position. -/
theorem startRhythmOwnedNote_out_pos (cfg : CoordConfig) (st : CoordState)
    (pos k : Int) :
    ∀ o ∈ (startRhythmOwnedNote cfg st pos k).2,
      o.samplePosition = pos := by
  intro o ho
  simp only [startRhythmOwnedNote] at ho
  rcases hm : getChordNoteByIndex
      (stopRhythmOwnedNotes cfg st pos k).1.chordNotes
      (computeChordIndex k cfg.rhythmRootNote) with _ | cn <;>
    rw [hm] at ho
  · exact stopRhythmOwnedNotes_out_pos cfg st pos k o ho
  · rcases List.mem_append.mp ho with h | h
    · exact stopRhythmOwnedNotes_out_pos cfg st pos k o h
    · simp only [List.mem_singleton] at h
      rw [h]

/-- Every event emitted while applying one input event carries that input
event's sample position. -/
theorem applyEvent_out_pos (cfg : CoordConfig) (st : CoordState)
    (e : TimedEvent) :
    ∀ o ∈ (applyEvent cfg st e).2,
      o.samplePosition = e.samplePosition := by
  intro o ho
  simp only [applyEvent] at ho
  split at ho
  · split at ho
    · exact stopRhythmOwnedNotes_out_pos cfg st e.samplePosition
        e.message.noteNumber o ho
    · split at ho
      · exact startRhythmOwnedNote_out_pos cfg st e.samplePosition
          e.message.noteNumber o ho
      · simp at ho
  · split at ho
    · split at ho
      · simp at ho
      · split at ho
        · simp at ho
        · simp at ho
    · simp at ho

/-- Every event emitted while applying a stream carries the sample position
of some event of the stream. -/
theorem applyEvents_out_pos (cfg : CoordConfig) (l : List TimedEvent) :
    ∀ (st : CoordState) (o : TimedEvent), o ∈ (applyEvents cfg st l).2 →
      ∃ e ∈ l, o.samplePosition = e.samplePosition := by
  induction l with
  | nil => intro st o ho; simp [applyEvents] at ho
  | cons e t ih =>
      intro st o ho
      simp only [applyEvents, List.mem_append] at ho
      rcases ho with h | h
      · exact ⟨e, List.mem_cons_self e t, applyEvent_out_pos cfg st e o h⟩
      · obtain ⟨x, hx, hpos⟩ := ih (applyEvent cfg st e).1 o h
        exact ⟨x, List.mem_cons_of_mem e hx, hpos⟩

/-- C4: emit semantics of `processBlock`.  With pass-through off the final
buffer holds exactly (as a multiset, the buffer re-sorts by position) the
generated events of the in-order application; with pass-through on it holds
those plus every input event whose channel is none of chord/rhythm/output,
preserved verbatim; input events on those channels are discarded in both
modes; and every output sample position occurs among the input sample
positions. -/
theorem processBlock_emit_semantics (cfg : CoordConfig) (st : CoordState)
    (input : List TimedEvent) :
    (cfg.passThroughOtherMidi = false →
      (processBlock cfg st input).2.Perm
        (applyEvents cfg st (sortEvents cfg input)).2) ∧
    (cfg.passThroughOtherMidi = true →
      (processBlock cfg st input).2.Perm
        (input.filter (fun e => !(isConsumed cfg e.message)) ++
          (applyEvents cfg st (sortEvents cfg input)).2)) ∧
    (∀ e ∈ (processBlock cfg st input).2,
      e.samplePosition ∈ input.map TimedEvent.samplePosition) := by
  have houts : ∀ o : TimedEvent,
      o ∈ (applyEvents cfg st (sortEvents cfg input)).2 →
      o.samplePosition ∈ input.map TimedEvent.samplePosition := by
    intro o ho
    obtain ⟨x, hx, hpos⟩ := applyEvents_out_pos cfg (sortEvents cfg input)
      st o ho
    have hxin : x ∈ input :=
      (List.perm_insertionSort (eventLe cfg) input).mem_iff.mp hx
    exact List.mem_map.mpr ⟨x, hxin, hpos.symm⟩
  refine ⟨?_, ?_, ?_⟩
  · intro hp
    simp only [processBlock, hp, Bool.false_eq_true, if_false]
    exact (addEvents_perm _ []).trans (by rw [List.nil_append])
  · intro hp
    simp only [processBlock, hp, if_true]
    refine (addEvents_perm _ _).trans ?_
    exact (addEvents_perm _ []).append_right _ |>.trans
      (by rw [List.nil_append])
  · intro e he
    by_cases hp : cfg.passThroughOtherMidi
    · simp only [processBlock, hp, if_true] at he
      have hmem := ((addEvents_perm _ _).mem_iff).mp he
      rcases List.mem_append.mp hmem with h | h
      · have h2 := ((addEvents_perm _ []).mem_iff).mp h
        rw [List.nil_append] at h2
        have h3 := List.mem_of_mem_filter h2
        exact List.mem_map.mpr ⟨e, h3, rfl⟩
      · exact houts e h
    · simp only [processBlock, hp, Bool.false_eq_true, if_false] at he
      have h2 := ((addEvents_perm _ []).mem_iff).mp he
      rw [List.nil_append] at h2
      exact houts e h2

/-- C4 witness: with pass-through on, a block holding a rhythm trigger, an
unrelated channel-5 event and an output-channel event keeps exactly the
channel-5 event plus the generated output; the rhythm and output-channel
inputs are discarded. -/
theorem processBlock_emit_semantics_witness :
    (processBlock ⟨1, 16, 2, 24, true⟩
        ⟨[MidiMessage.noteOnMsg 1 60 100], []⟩
        [⟨MidiMessage.noteOnMsg 16 24 90, 10⟩,
         ⟨MidiMessage.noteOnMsg 5 40 70, 3⟩,
         ⟨MidiMessage.noteOnMsg 2 41 70, 4⟩]).2.Perm
      (([⟨MidiMessage.noteOnMsg 16 24 90, 10⟩,
         ⟨MidiMessage.noteOnMsg 5 40 70, 3⟩,
         ⟨MidiMessage.noteOnMsg 2 41 70, 4⟩].filter
           (fun e => !(isConsumed ⟨1, 16, 2, 24, true⟩ e.message))) ++
        (applyEvents ⟨1, 16, 2, 24, true⟩
          ⟨[MidiMessage.noteOnMsg 1 60 100], []⟩
          (sortEvents ⟨1, 16, 2, 24, true⟩
            [⟨MidiMessage.noteOnMsg 16 24 90, 10⟩,
             ⟨MidiMessage.noteOnMsg 5 40 70, 3⟩,
             ⟨MidiMessage.noteOnMsg 2 41 70, 4⟩])).2) :=
  (processBlock_emit_semantics ⟨1, 16, 2, 24, true⟩
    ⟨[MidiMessage.noteOnMsg 1 60 100], []⟩
    [⟨MidiMessage.noteOnMsg 16 24 90, 10⟩,
     ⟨MidiMessage.noteOnMsg 5 40 70, 3⟩,
     ⟨MidiMessage.noteOnMsg 2 41 70, 4⟩]).2.1 rfl

end PhuArp
